import Mathlib

/-!
Shallow embedding of the collect-merge-score-serve pipeline of the
`llm-news` repository (Go), together with theorems about its claims.

Modelling conventions:
* Go `float64` values are modelled as rationals (`ℚ`); all the constants in
  the scoring code are short decimals, which `ℚ` represents exactly.
* Go `time.Time` values are modelled as rational hours since an epoch; where
  the code distinguishes the zero time (`IsZero`), the field is an
  `Option ℚ` with `none` standing for the zero value.
* Go `int` is modelled as `Int`, Go `len` of a string as its UTF-8 byte size.
* `math/rand` draws are modelled by an explicit stream of outcomes (`Rng`)
  threaded through the functions that consume them.
* Go map iteration order is unspecified; maps iterated by the code are kept
  in source order, and theorems about map-backed results are stated up to
  set equality.
-/

/-- Decides whether the first character list is a prefix of the second. -/
def charsStartWith : List Char → List Char → Bool
  | [], _ => true
  | _ :: _, [] => false
  | a :: as, b :: bs => a == b && charsStartWith as bs

/-- Decides whether the first character list occurs inside the second. -/
def charsContain : List Char → List Char → Bool
  | needle, [] => needle.isEmpty
  | needle, c :: rest => charsStartWith needle (c :: rest) || charsContain needle rest

/-- Go `strings.Contains s sub`: substring occurrence. Go matches on UTF-8
bytes; since UTF-8 is self-synchronizing this coincides with occurrence on
characters. -/
def goContains (s sub : String) : Bool :=
  charsContain sub.data s.data

/-- Go `strings.ToLower` (character-wise lowering). -/
def goToLower (s : String) : String :=
  String.mk (s.data.map Char.toLower)

/-- Go `len` on a string counts bytes. -/
def goLen (s : String) : Nat :=
  s.utf8ByteSize

/-- Go `int(x)` conversion from `float64`: truncation toward zero. -/
def goTrunc (q : ℚ) : Int :=
  if q < 0 then -(Int.floor (-q)) else Int.floor q

/-- The helper `minFloat` from the scrapers package. -/
def minFloat (a b : ℚ) : ℚ :=
  if a < b then a else b

/-- The helper `minInt` from the papers package. -/
def minInt (a b : Int) : Int :=
  if a < b then a else b

/-- The helper `maxInt` from the papers package. -/
def maxInt (a b : Int) : Int :=
  if a > b then a else b

/-- Go `math.Min` on our rational model of `float64`. -/
def mathMin (a b : ℚ) : ℚ :=
  if a < b then a else b

/-- `TrendMetrics` from `internal/models/models.go`. -/
structure TrendMetrics where
  stars24h : Int
  forks24h : Int
  views7d : Int
deriving DecidableEq

/-- `Repository` from `internal/models/models.go`. -/
structure Repository where
  name : String
  url : String
  description : String
  language : String
  stars : Int
  forks : Int
  gainedStars : Int
  gainedForks : Int
  lastUpdated : Option ℚ
  lastCommit : Option ℚ
  techStack : List String
  trendMetrics : TrendMetrics
  relevanceScore : ℚ
  hasDocs : Bool
  hasWiki : Bool
  hasReadme : Bool
  docsURL : String
  modelCategories : List String
  source : String
  paperURL : String
  paperTitle : String
  authors : List String
deriving DecidableEq

/-- `Paper` from `internal/models/models.go`. -/
structure Paper where
  title : String
  url : String
  authors : List String
  publishedDate : ℚ
  source : String
  summary : String
  keywords : List String
  citationCount : Int
  citationVelocity : ℚ
  noveltyScore : ℚ
  reproducibilityScore : ℚ
  coreContributions : List String
  keyTechniques : List String
  codeSnippet : String
  architectureDiagram : String
deriving DecidableEq

/-- `FilterCriteria` from `internal/models/models.go`. -/
structure FilterCriteria where
  minStarsGrowthRate : Int
  maxDaysSinceCommit : Int
  requiresDocumentation : Bool
  minRelevanceScore : ℚ
deriving DecidableEq

/-- `DefaultFilterCriteria` from `internal/models/models.go`. -/
def DefaultFilterCriteria : FilterCriteria :=
  { minStarsGrowthRate := 0
    maxDaysSinceCommit := 180
    requiresDocumentation := false
    minRelevanceScore := 0.01 }

/-- The zero value of `Repository` (all fields at their Go zero values). -/
def emptyRepository : Repository :=
  { name := ""
    url := ""
    description := ""
    language := ""
    stars := 0
    forks := 0
    gainedStars := 0
    gainedForks := 0
    lastUpdated := none
    lastCommit := none
    techStack := []
    trendMetrics := { stars24h := 0, forks24h := 0, views7d := 0 }
    relevanceScore := 0
    hasDocs := false
    hasWiki := false
    hasReadme := false
    docsURL := ""
    modelCategories := []
    source := ""
    paperURL := ""
    paperTitle := ""
    authors := [] }

/-- The zero value of `Paper` (all fields at their Go zero values). -/
def emptyPaper : Paper :=
  { title := ""
    url := ""
    authors := []
    publishedDate := 0
    source := ""
    summary := ""
    keywords := []
    citationCount := 0
    citationVelocity := 0
    noveltyScore := 0
    reproducibilityScore := 0
    coreContributions := []
    keyTechniques := []
    codeSnippet := ""
    architectureDiagram := "" }

/-! The Go map `repoMap` of `mergeRepositories` (cmd/server/main.go) is
modelled as an association list; `mapSet` is the map assignment
`m[k] = v`, and `mapHasKey` the comma-ok lookup used by the merge. -/

/-- Go map assignment `m[k] = v` on an association list. -/
def mapSet : List (String × Repository) → String → Repository → List (String × Repository)
  | [], k, v => [(k, v)]
  | (k', v') :: rest, k, v =>
      if k' = k then (k, v) :: rest else (k', v') :: mapSet rest k v

/-- Go map membership test `_, exists := m[k]`. -/
def mapHasKey (m : List (String × Repository)) (k : String) : Bool :=
  m.any (fun p => p.1 == k)

/-- First loop of `mergeRepositories`: every repository of the first source
is written into the map. -/
def mergeInsertAll (m : List (String × Repository)) (repos : List Repository) :
    List (String × Repository) :=
  repos.foldl (fun m repo => mapSet m repo.name repo) m

/-- Second loop of `mergeRepositories`: repositories of the second source are
written only if their key is not yet present. -/
def mergeInsertNew (m : List (String × Repository)) (repos : List Repository) :
    List (String × Repository) :=
  repos.foldl (fun m repo => if mapHasKey m repo.name then m else mapSet m repo.name repo) m

/-- The `repoMap` built by `mergeRepositories` in cmd/server/main.go. -/
def mergeMap (repos1 repos2 : List Repository) : List (String × Repository) :=
  mergeInsertNew (mergeInsertAll [] repos1) repos2

/-- `mergeRepositories` from cmd/server/main.go: build the map from both
sources, then return its values. -/
def mergeRepositories (repos1 repos2 : List Repository) : List Repository :=
  (mergeMap repos1 repos2).map Prod.snd

/-! Invariants of the merge map. -/

theorem mapSet_mem {k : String} {v : Repository} :
    ∀ {m : List (String × Repository)} {p : String × Repository},
      p ∈ mapSet m k v → p ∈ m ∨ p = (k, v) := by
  intro m
  induction m with
  | nil =>
    intro p hp
    right
    simpa [mapSet] using hp
  | cons hd tl ih =>
    intro p hp
    obtain ⟨k', v'⟩ := hd
    simp only [mapSet] at hp
    split at hp
    · rcases List.mem_cons.mp hp with h | h
      · exact Or.inr h
      · exact Or.inl (List.mem_cons_of_mem _ h)
    · rcases List.mem_cons.mp hp with h | h
      · exact Or.inl (List.mem_cons.mpr (Or.inl h))
      · rcases ih h with h1 | h2
        · exact Or.inl (List.mem_cons_of_mem _ h1)
        · exact Or.inr h2

theorem mapSet_key_self {k : String} {v : Repository} :
    ∀ (m : List (String × Repository)), ∃ w, (k, w) ∈ mapSet m k v := by
  intro m
  induction m with
  | nil => exact ⟨v, by simp [mapSet]⟩
  | cons hd tl ih =>
    obtain ⟨k', v'⟩ := hd
    simp only [mapSet]
    split
    · exact ⟨v, List.mem_cons_self _ _⟩
    · obtain ⟨w, hw⟩ := ih
      exact ⟨w, List.mem_cons_of_mem _ hw⟩

theorem mapSet_key_mono {k x : String} {v : Repository} :
    ∀ {m : List (String × Repository)}, (∃ w, (x, w) ∈ m) →
      ∃ w, (x, w) ∈ mapSet m k v := by
  intro m
  induction m with
  | nil => rintro ⟨w, hw⟩; cases hw
  | cons hd tl ih =>
    rintro ⟨w, hw⟩
    obtain ⟨k', v'⟩ := hd
    simp only [mapSet]
    split
    · rename_i heq
      rcases List.mem_cons.mp hw with h | h
      · have hx : x = k' := congrArg Prod.fst h
        exact ⟨v, by simp [hx, heq]⟩
      · exact ⟨w, List.mem_cons_of_mem _ h⟩
    · rcases List.mem_cons.mp hw with h | h
      · exact ⟨w, by simp [h]⟩
      · obtain ⟨w', hw'⟩ := ih ⟨w, h⟩
        exact ⟨w', List.mem_cons_of_mem _ hw'⟩

theorem mapSet_keys_nodup {k : String} {v : Repository} :
    ∀ {m : List (String × Repository)}, (m.map Prod.fst).Nodup →
      ((mapSet m k v).map Prod.fst).Nodup := by
  intro m
  induction m with
  | nil => intro _; simp [mapSet]
  | cons hd tl ih =>
    intro h
    obtain ⟨k', v'⟩ := hd
    simp only [List.map_cons, List.nodup_cons] at h
    simp only [mapSet]
    split
    · rename_i heq
      subst heq
      simpa [List.nodup_cons] using h
    · rename_i hne
      simp only [List.map_cons, List.nodup_cons]
      refine ⟨?_, ih h.2⟩
      intro hmem
      rcases List.mem_map.mp hmem with ⟨p, hp, hfst⟩
      rcases mapSet_mem hp with h1 | h2
      · exact h.1 (List.mem_map.mpr ⟨p, h1, hfst⟩)
      · exact hne (by rw [h2] at hfst; exact hfst.symm)

theorem mapHasKey_iff {m : List (String × Repository)} {k : String} :
    mapHasKey m k = true ↔ ∃ w, (k, w) ∈ m := by
  simp only [mapHasKey, List.any_eq_true, beq_iff_eq]
  constructor
  · rintro ⟨⟨x, w⟩, hmem, hx⟩
    have hx' : x = k := hx
    subst hx'
    exact ⟨w, hmem⟩
  · rintro ⟨w, hw⟩
    exact ⟨(k, w), hw, rfl⟩

/-- Joint invariant carried through both merge loops: every binding stores an
input repository under its own name, and the keys are distinct. -/
def MergeInv (S : List Repository) (m : List (String × Repository)) : Prop :=
  (∀ p ∈ m, p.2 ∈ S ∧ p.2.name = p.1) ∧ (m.map Prod.fst).Nodup

theorem mergeInv_mapSet {S : List Repository} {m : List (String × Repository)}
    {v : Repository} (hinv : MergeInv S m) (hv : v ∈ S) :
    MergeInv S (mapSet m v.name v) := by
  constructor
  · intro p hp
    rcases mapSet_mem hp with h | h
    · exact hinv.1 p h
    · subst h; exact ⟨hv, rfl⟩
  · exact mapSet_keys_nodup hinv.2

theorem mergeInsertAll_nil (m : List (String × Repository)) :
    mergeInsertAll m [] = m := rfl

theorem mergeInsertAll_cons (m : List (String × Repository)) (r : Repository)
    (rest : List Repository) :
    mergeInsertAll m (r :: rest) = mergeInsertAll (mapSet m r.name r) rest := rfl

theorem mergeInsertNew_nil (m : List (String × Repository)) :
    mergeInsertNew m [] = m := rfl

theorem mergeInsertNew_cons (m : List (String × Repository)) (r : Repository)
    (rest : List Repository) :
    mergeInsertNew m (r :: rest) =
      mergeInsertNew (if mapHasKey m r.name then m else mapSet m r.name r) rest := rfl

theorem mergeInsertAll_inv {S : List Repository} :
    ∀ (repos : List Repository) (m : List (String × Repository)),
      (∀ r ∈ repos, r ∈ S) → MergeInv S m → MergeInv S (mergeInsertAll m repos) := by
  intro repos
  induction repos with
  | nil => intro m _ hinv; exact hinv
  | cons r rest ih =>
    intro m hS hinv
    rw [mergeInsertAll_cons]
    exact ih _ (fun x hx => hS x (List.mem_cons_of_mem _ hx))
      (mergeInv_mapSet hinv (hS r (List.mem_cons_self _ _)))

theorem mergeInsertNew_inv {S : List Repository} :
    ∀ (repos : List Repository) (m : List (String × Repository)),
      (∀ r ∈ repos, r ∈ S) → MergeInv S m → MergeInv S (mergeInsertNew m repos) := by
  intro repos
  induction repos with
  | nil => intro m _ hinv; exact hinv
  | cons r rest ih =>
    intro m hS hinv
    rw [mergeInsertNew_cons]
    refine ih _ (fun x hx => hS x (List.mem_cons_of_mem _ hx)) ?_
    split
    · exact hinv
    · exact mergeInv_mapSet hinv (hS r (List.mem_cons_self _ _))

theorem mergeInsertAll_key_mono {x : String} :
    ∀ (repos : List Repository) (m : List (String × Repository)),
      (∃ w, (x, w) ∈ m) → ∃ w, (x, w) ∈ mergeInsertAll m repos := by
  intro repos
  induction repos with
  | nil => intro m h; exact h
  | cons r rest ih =>
    intro m h
    rw [mergeInsertAll_cons]
    exact ih _ (mapSet_key_mono h)

theorem mergeInsertNew_key_mono {x : String} :
    ∀ (repos : List Repository) (m : List (String × Repository)),
      (∃ w, (x, w) ∈ m) → ∃ w, (x, w) ∈ mergeInsertNew m repos := by
  intro repos
  induction repos with
  | nil => intro m h; exact h
  | cons r rest ih =>
    intro m h
    rw [mergeInsertNew_cons]
    refine ih _ ?_
    split
    · exact h
    · exact mapSet_key_mono h

theorem mergeInsertAll_key_of_mem {r : Repository} :
    ∀ (repos : List Repository) (m : List (String × Repository)), r ∈ repos →
      ∃ w, (r.name, w) ∈ mergeInsertAll m repos := by
  intro repos
  induction repos with
  | nil => intro m h; cases h
  | cons hd rest ih =>
    intro m h
    rw [mergeInsertAll_cons]
    rcases List.mem_cons.mp h with h1 | h2
    · subst h1
      exact mergeInsertAll_key_mono _ _ (mapSet_key_self _)
    · exact ih _ h2

theorem mergeInsertNew_key_of_mem {r : Repository} :
    ∀ (repos : List Repository) (m : List (String × Repository)), r ∈ repos →
      ∃ w, (r.name, w) ∈ mergeInsertNew m repos := by
  intro repos
  induction repos with
  | nil => intro m h; cases h
  | cons hd rest ih =>
    intro m h
    rw [mergeInsertNew_cons]
    rcases List.mem_cons.mp h with h1 | h2
    · subst h1
      refine mergeInsertNew_key_mono _ _ ?_
      split
      · rename_i hkey
        exact mapHasKey_iff.mp hkey
      · exact mapSet_key_self _
    · exact ih _ h2

theorem mergeMap_inv (repos1 repos2 : List Repository) :
    MergeInv (repos1 ++ repos2) (mergeMap repos1 repos2) := by
  refine mergeInsertNew_inv repos2 _ (fun r hr => List.mem_append_right _ hr) ?_
  refine mergeInsertAll_inv repos1 [] (fun r hr => List.mem_append_left _ hr) ?_
  exact ⟨fun p hp => absurd hp (List.not_mem_nil p), List.nodup_nil⟩

theorem mergeMap_key_of_mem {r : Repository} {repos1 repos2 : List Repository}
    (h : r ∈ repos1 ++ repos2) : ∃ w, (r.name, w) ∈ mergeMap repos1 repos2 := by
  rcases List.mem_append.mp h with h1 | h2
  · exact mergeInsertNew_key_mono _ _ (mergeInsertAll_key_of_mem _ _ h1)
  · exact mergeInsertNew_key_of_mem _ _ h2

theorem merge_mem_iff {repos1 repos2 : List Repository}
    (h : ∀ a ∈ repos1 ++ repos2, ∀ b ∈ repos1 ++ repos2, a.name = b.name → a = b)
    {r : Repository} : r ∈ mergeRepositories repos1 repos2 ↔ r ∈ repos1 ++ repos2 := by
  have hinv := mergeMap_inv repos1 repos2
  constructor
  · intro hr
    rcases List.mem_map.mp hr with ⟨p, hp, hsnd⟩
    subst hsnd
    exact (hinv.1 p hp).1
  · intro hr
    obtain ⟨w, hw⟩ := mergeMap_key_of_mem hr
    have h1 := hinv.1 _ hw
    have hwr : w = r := h w h1.1 r hr h1.2
    exact List.mem_map.mpr ⟨(r.name, w), hw, hwr⟩

/-- Claim C4: the collection returned by `mergeRepositories` has unique
identity keys: no two repositories in the output share a `Name`. -/
theorem C4_merge_unique_names (repos1 repos2 : List Repository) :
    ((mergeRepositories repos1 repos2).map Repository.name).Nodup := by
  have hinv := mergeMap_inv repos1 repos2
  have hmap : (mergeRepositories repos1 repos2).map Repository.name
      = (mergeMap repos1 repos2).map Prod.fst := by
    rw [mergeRepositories, List.map_map]
    exact List.map_congr_left (fun p hp => (hinv.1 p hp).2)
  rw [hmap]
  exact hinv.2

/-- Two repositories sharing a name but differing in description. -/
def repoXa : Repository := { emptyRepository with name := "x", description := "a" }

/-- Second repository with the same name as `repoXa`. -/
def repoXb : Repository := { emptyRepository with name := "x", description := "b" }

/-- Claim C3 (counterexample): `mergeRepositories` is not order-independent as
stated. Permuting the items of the first argument changes the resulting
collection, even as a set, because within one source the last item with a
given name wins. -/
theorem C3_counterexample :
    (mergeRepositories [repoXa, repoXb] []).toFinset ≠
      (mergeRepositories [repoXb, repoXa] []).toFinset := by
  decide

/-- Claim C3 (amended): the merge is order-independent provided no two
distinct input items share a `Name`: for inputs with the same items (up to
permutation and re-splitting between the two arguments), the output is the
same set of items. -/
theorem C3_merge_order_independent
    (repos1 repos2 repos1x repos2x : List Repository)
    (hkeys : ∀ a ∈ repos1 ++ repos2, ∀ b ∈ repos1 ++ repos2, a.name = b.name → a = b)
    (hperm : (repos1x ++ repos2x).Perm (repos1 ++ repos2)) :
    (mergeRepositories repos1x repos2x).toFinset =
      (mergeRepositories repos1 repos2).toFinset := by
  have hkeysx : ∀ a ∈ repos1x ++ repos2x, ∀ b ∈ repos1x ++ repos2x, a.name = b.name → a = b :=
    fun a ha b hb => hkeys a (hperm.mem_iff.mp ha) b (hperm.mem_iff.mp hb)
  ext r
  simp only [List.mem_toFinset]
  rw [merge_mem_iff hkeysx, merge_mem_iff hkeys]
  exact hperm.mem_iff

/-- Witness for C3 (amended) at a concrete input: moving the only item from
the first source to the second leaves the merged set unchanged. -/
theorem C3_witness :
    (mergeRepositories [] [repoXa]).toFinset = (mergeRepositories [repoXa] []).toFinset :=
  C3_merge_order_independent [repoXa] [] [] [repoXa] (by decide) (List.Perm.refl _)

/-! Embedding of `applyFilterCriteria` (internal/scrapers, part of
`ScrapeGithubTrending`). The reference time `now` stands for the wall clock
read by `time.Since`; `sort.Slice` with comparator
`repos[i].RelevanceScore > repos[j].RelevanceScore` is modelled by insertion
sort with respect to the non-strict descending-score relation, which yields
a list sorted exactly as the Go comparator demands. -/

/-- Descending-score order used by the fallback branch of
`applyFilterCriteria`. -/
def scoreGE (a b : Repository) : Prop :=
  b.relevanceScore ≤ a.relevanceScore

instance : DecidableRel scoreGE :=
  fun a b => inferInstanceAs (Decidable (b.relevanceScore ≤ a.relevanceScore))

instance : IsTotal Repository scoreGE :=
  ⟨fun a b => le_total b.relevanceScore a.relevanceScore⟩

instance : IsTrans Repository scoreGE :=
  ⟨fun _ _ _ hab hbc => le_trans hbc hab⟩

/-- One repository's pass through the four criteria checks of
`applyFilterCriteria`. -/
def repoPassesFilter (now : ℚ) (criteria : FilterCriteria) (repo : Repository) : Bool :=
  if repo.trendMetrics.stars24h < criteria.minStarsGrowthRate then false
  else if (match repo.lastCommit with
    | some lastCommit => decide ((now - lastCommit) / 24 > (criteria.maxDaysSinceCommit : ℚ))
    | none => false) then false
  else if criteria.requiresDocumentation && !repo.hasDocs then false
  else if repo.relevanceScore < criteria.minRelevanceScore then false
  else true

/-- `applyFilterCriteria` from the scrapers package: fewer than 50 inputs are
returned untouched; otherwise the criteria are applied, and if they leave
fewer than 50 items the top 50 by relevance score are returned instead. -/
def applyFilterCriteria (now : ℚ) (repos : List Repository) (criteria : FilterCriteria) :
    List Repository :=
  if repos.length < 50 then repos
  else if (repos.filter (repoPassesFilter now criteria)).length < 50 ∧ repos.length > 0 then
    (List.insertionSort scoreGE repos).take (if repos.length < 50 then repos.length else 50)
  else repos.filter (repoPassesFilter now criteria)

/-- Claim C5: with the default criteria the post-merge filter returns at
least `min 50 (length of input)` items, and whenever the criteria alone
would keep fewer than 50 items, the returned items are a sub-multiset of the
input in which every kept item has relevance score at least that of every
item left out. -/
theorem C5_filter_floor (now : ℚ) (repos : List Repository) :
    min 50 repos.length ≤ (applyFilterCriteria now repos DefaultFilterCriteria).length ∧
    ((repos.filter (repoPassesFilter now DefaultFilterCriteria)).length < 50 →
      ∃ rest : List Repository,
        ((applyFilterCriteria now repos DefaultFilterCriteria) ++ rest).Perm repos ∧
        ∀ r ∈ applyFilterCriteria now repos DefaultFilterCriteria, ∀ s ∈ rest,
          s.relevanceScore ≤ r.relevanceScore) := by
  by_cases hlen : repos.length < 50
  · rw [applyFilterCriteria, if_pos hlen]
    refine ⟨min_le_right _ _, fun _ => ⟨[], ?_, ?_⟩⟩
    · rw [List.append_nil]
    · intro r _ s hs
      cases hs
  · have h50 : 50 ≤ repos.length := le_of_not_lt hlen
    by_cases hfilt : (repos.filter (repoPassesFilter now DefaultFilterCriteria)).length < 50
    · have hcond : (repos.filter (repoPassesFilter now DefaultFilterCriteria)).length < 50 ∧
          repos.length > 0 := ⟨hfilt, lt_of_lt_of_le (by norm_num) h50⟩
      rw [applyFilterCriteria, if_neg hlen, if_pos hcond, if_neg hlen]
      have hsortlen : (List.insertionSort scoreGE repos).length = repos.length :=
        (List.perm_insertionSort scoreGE repos).length_eq
      constructor
      · rw [List.length_take, hsortlen]
      · intro _
        refine ⟨(List.insertionSort scoreGE repos).drop 50, ?_, ?_⟩
        · rw [List.take_append_drop]
          exact List.perm_insertionSort scoreGE repos
        · have hsorted : List.Sorted scoreGE (List.insertionSort scoreGE repos) :=
            List.sorted_insertionSort scoreGE repos
          rw [List.Sorted, ← List.take_append_drop 50 (List.insertionSort scoreGE repos),
            List.pairwise_append] at hsorted
          exact fun r hr s hs => hsorted.2.2 r hr s hs
    · rw [applyFilterCriteria, if_neg hlen,
        if_neg (fun hc => hfilt hc.1)]
      refine ⟨?_, fun hc => absurd hc hfilt⟩
      calc min 50 repos.length ≤ 50 := min_le_left _ _
        _ ≤ (repos.filter (repoPassesFilter now DefaultFilterCriteria)).length :=
          le_of_not_lt hfilt

/-- Witness for C5 at a concrete input: with a single input repository the
criteria necessarily keep fewer than 50 items, and the returned items
dominate the left-out ones. -/
theorem C5_witness :
    ∃ rest : List Repository,
      ((applyFilterCriteria 0 [repoXa] DefaultFilterCriteria) ++ rest).Perm [repoXa] ∧
      ∀ r ∈ applyFilterCriteria 0 [repoXa] DefaultFilterCriteria, ∀ s ∈ rest,
        s.relevanceScore ≤ r.relevanceScore :=
  (C5_filter_floor 0 [repoXa]).2
    (lt_of_le_of_lt (List.length_filter_le _ _) (by norm_num))

/-! Embedding of `calculateRelevanceScores` (scrapers package). The Go local
variables `starsScore`, `growthScore`, `recencyScore` and `keywordScore` are
named subterms here. -/

/-- The keyword list used by the keyword relevance term of
`calculateRelevanceScores`. -/
def relevantKeywords : List String :=
  ["llm", "agent", "multimodal", "rlhf", "diffusion", "agi", "ai", "ml",
   "gpt", "bert", "transformer", "nlp", "language-model", "claude", "gemini",
   "fine-tuning", "prompt", "rag", "anthropic", "openai", "text-to-image"]

/-- The `starsScore` term: engagement magnitude, saturating at 5000 stars. -/
def repoStarsScore (repo : Repository) : ℚ :=
  minFloat ((repo.stars : ℚ) / 5000.0) 1.0 * 0.25

/-- The `growthScore` term: growth velocity, saturating at 50 stars a day. -/
def repoGrowthScore (repo : Repository) : ℚ :=
  minFloat ((repo.trendMetrics.stars24h : ℚ) / 50.0) 1.0 * 0.35

/-- The `recencyScore` term: linear decay over a 30-day window. -/
def repoRecencyScore (now : ℚ) (repo : Repository) : ℚ :=
  match repo.lastCommit with
  | none => 0.0
  | some lastCommit =>
      let daysSinceLastCommit := (now - lastCommit) / 24
      (1.0 - minFloat (daysSinceLastCommit / 30.0) 1.0) * 0.15

/-- The `keywordScore` term: a base of 0.25, plus 0.03 for every keyword in
the name, 0.01 for every keyword in the description, and 0.02 for every tech
stack entry matching some keyword, capped at 0.35. -/
def repoKeywordScore (repo : Repository) : ℚ :=
  let lowerName := goToLower repo.name
  let lowerDesc := goToLower repo.description
  let keywordScore := relevantKeywords.foldl
    (fun acc keyword =>
      let acc := if goContains lowerName keyword then acc + 0.03 else acc
      if goContains lowerDesc keyword then acc + 0.01 else acc) 0.25
  let keywordScore := repo.techStack.foldl
    (fun acc tech =>
      if relevantKeywords.any (fun keyword => goContains (goToLower tech) keyword) then acc + 0.02
      else acc) keywordScore
  minFloat keywordScore 0.35

/-- Per-item body of `calculateRelevanceScores`: sum the four terms, then
clamp at 1.0. -/
def scoreRepository (now : ℚ) (repo : Repository) : Repository :=
  { repo with relevanceScore :=
      minFloat (repoStarsScore repo + repoGrowthScore repo +
        repoRecencyScore now repo + repoKeywordScore repo) 1.0 }

/-- `calculateRelevanceScores` from the scrapers package. -/
def calculateRelevanceScores (now : ℚ) (repos : List Repository) : List Repository :=
  repos.map (scoreRepository now)

theorem minFloat_nonneg {a b : ℚ} (ha : 0 ≤ a) (hb : 0 ≤ b) : 0 ≤ minFloat a b := by
  unfold minFloat
  split <;> assumption

theorem minFloat_le_right (a b : ℚ) : minFloat a b ≤ b := by
  unfold minFloat
  split
  · rename_i h
    exact le_of_lt h
  · exact le_refl b

theorem foldl_le_of_step {α : Type} (f : ℚ → α → ℚ) (h : ∀ acc x, acc ≤ f acc x) :
    ∀ (l : List α) (a : ℚ), a ≤ l.foldl f a := by
  intro l
  induction l with
  | nil => intro a; exact le_refl a
  | cons x xs ih => intro a; exact le_trans (h a x) (ih (f a x))

theorem repoStarsScore_nonneg {repo : Repository} (h : 0 ≤ repo.stars) :
    0 ≤ repoStarsScore repo := by
  unfold repoStarsScore
  refine mul_nonneg (minFloat_nonneg ?_ (by norm_num)) (by norm_num)
  exact div_nonneg (by exact_mod_cast h) (by norm_num)

theorem repoGrowthScore_nonneg {repo : Repository} (h : 0 ≤ repo.trendMetrics.stars24h) :
    0 ≤ repoGrowthScore repo := by
  unfold repoGrowthScore
  refine mul_nonneg (minFloat_nonneg ?_ (by norm_num)) (by norm_num)
  exact div_nonneg (by exact_mod_cast h) (by norm_num)

theorem repoRecencyScore_nonneg (now : ℚ) (repo : Repository) :
    0 ≤ repoRecencyScore now repo := by
  unfold repoRecencyScore
  match repo.lastCommit with
  | none => norm_num
  | some lastCommit =>
    refine mul_nonneg ?_ (by norm_num)
    have := minFloat_le_right (((now - lastCommit) / 24) / 30.0) 1.0
    linarith

theorem repoKeywordScore_nonneg (repo : Repository) : 0 ≤ repoKeywordScore repo := by
  unfold repoKeywordScore
  refine minFloat_nonneg ?_ (by norm_num)
  have h1 : (0.25 : ℚ) ≤ relevantKeywords.foldl
      (fun acc keyword =>
        let acc := if goContains (goToLower repo.name) keyword then acc + 0.03 else acc
        if goContains (goToLower repo.description) keyword then acc + 0.01 else acc) 0.25 := by
    refine foldl_le_of_step _ ?_ _ _
    intro acc x
    dsimp only []
    split <;> split <;> linarith
  have h2 := foldl_le_of_step
    (fun acc tech =>
      if relevantKeywords.any (fun keyword => goContains (goToLower tech) keyword) then acc + 0.02
      else acc)
    (by intro acc x; dsimp only []; split <;> linarith)
    repo.techStack
    (relevantKeywords.foldl
      (fun acc keyword =>
        let acc := if goContains (goToLower repo.name) keyword then acc + 0.03 else acc
        if goContains (goToLower repo.description) keyword then acc + 0.01 else acc) 0.25)
  linarith

theorem scoreRepository_bounds (now : ℚ) (repo : Repository)
    (hstars : 0 ≤ repo.stars) (hgrowth : 0 ≤ repo.trendMetrics.stars24h) :
    0 ≤ (scoreRepository now repo).relevanceScore ∧
      (scoreRepository now repo).relevanceScore ≤ 1 := by
  have h1 := repoStarsScore_nonneg hstars
  have h2 := repoGrowthScore_nonneg hgrowth
  have h3 := repoRecencyScore_nonneg now repo
  have h4 := repoKeywordScore_nonneg repo
  have hsum : 0 ≤ repoStarsScore repo + repoGrowthScore repo +
      repoRecencyScore now repo + repoKeywordScore repo := by linarith
  simp only [scoreRepository]
  constructor
  · exact minFloat_nonneg hsum (by norm_num)
  · have h := minFloat_le_right (repoStarsScore repo + repoGrowthScore repo +
      repoRecencyScore now repo + repoKeywordScore repo) 1.0
    linarith

/-! Embedding of the papers package (FetchTopPapers and its helpers). The
`math/rand` generator, seeded from the wall clock, is modelled as a stream
of draw outcomes threaded through the computation. -/

/-- Stream of `math/rand` outcomes: successive `rand.Intn` draws (before the
modulus) and successive `rand.Float64` draws. -/
structure Rng where
  ints : List Nat
  floats : List ℚ
deriving DecidableEq

/-- One draw of `rand.Intn n`. -/
def randIntn (n : Nat) (g : Rng) : Nat × Rng :=
  match g.ints with
  | [] => (0, g)
  | k :: rest => (k % n, { ints := rest, floats := g.floats })

/-- One draw of `rand.Float64` (a value in `[0,1)`). -/
def randFloat (g : Rng) : ℚ × Rng :=
  match g.floats with
  | [] => (0, g)
  | q :: rest => (q, { ints := g.ints, floats := rest })

/-- An exhausted draw stream. -/
def rng0 : Rng :=
  { ints := [], floats := [] }

/-- `containsAny` from the papers package: does the text contain any of the
terms, case-insensitively. -/
def containsAny (text : String) (terms : List String) : Bool :=
  terms.any (fun term => goContains (goToLower text) (goToLower term))

/-- `containsAnyInSlice` from the papers package. -/
def containsAnyInSlice (texts : List String) (term : String) : Bool :=
  texts.any (fun text => goContains (goToLower text) (goToLower term))

/-- `containsTermInSlice` from the papers package (no case folding; its
inputs are already lowered). -/
def containsTermInSlice (slice : List String) (term : String) : Bool :=
  slice.any (fun item => goContains item term)

/-- The `noveltyTerms` list of `enhancePaperWithDetails`. -/
def noveltyTerms : List String :=
  ["new", "novel", "first", "innovative", "breakthrough", "state-of-the-art",
   "sota", "cutting-edge", "pioneering", "groundbreaking", "unprecedented"]

/-- The `reproducibilityTerms` list of `enhancePaperWithDetails`. -/
def reproducibilityTerms : List String :=
  ["code", "github", "implementation", "dataset", "public",
   "available", "open-source", "repository", "replicate", "reproduce"]

/-- The `aiTerms` list used for key techniques in `enhancePaperWithDetails`. -/
def enhanceAiTerms : List String :=
  ["transformer", "attention mechanism", "fine-tuning", "reinforcement learning",
   "diffusion model", "generative model", "multi-modal", "RLHF", "contrastive learning"]

/-- The `modelKeywords` map of `enhancePaperWithDetails`, in source order
(Go map iteration order is unspecified; only which models are appended
depends on it, not any score). -/
def modelKeywordsTable : List (String × List String) :=
  [("Cursor", ["cursor", "cursor ai"]),
   ("DeepSeek", ["deepseek", "deepseek-coder", "deepseek-llm"]),
   ("Hunyuan", ["hunyuan", "tencent hunyuan"]),
   ("文心一言", ["文心一言", "wenxin", "ernie bot", "ernie", "baidu"]),
   ("GPT", ["gpt", "gpt-4", "gpt-3", "chatgpt", "openai"]),
   ("Claude", ["claude", "anthropic"]),
   ("Gemini", ["gemini", "google gemini"]),
   ("Llama", ["llama", "meta llama", "llama 2", "llama 3"]),
   ("Mistral", ["mistral ai", "mistral"]),
   ("Qwen", ["qwen", "tongyi qianwen", "通义千问"]),
   ("ChatGLM", ["chatglm", "glm", "智谱"])]

/-- `generateCodeSnippet` from the papers package. -/
def generateCodeSnippet (paper : Paper) : String :=
  if containsAny paper.title ["LLM", "GPT", "language model"] then
    "```python\n# Example LLM implementation\nimport transformers\n\nmodel = transformers.AutoModelForCausalLM.from_pretrained(\"gpt2\")\ntokenizer = transformers.AutoTokenizer.from_pretrained(\"gpt2\")\n\ninputs = tokenizer(\"Hello, I\x27m a language model\", return_tensors=\"pt\")\noutputs = model.generate(**inputs, max_length=50)\nprint(tokenizer.decode(outputs[0]))\n```"
  else if containsAny paper.title ["vision", "image", "CV"] then
    "```python\n# Example Vision Transformer\nimport torch\nfrom transformers import ViTForImageClassification, ViTImageProcessor\n\nmodel = ViTForImageClassification.from_pretrained(\"google/vit-base-patch16-224\")\nprocessor = ViTImageProcessor.from_pretrained(\"google/vit-base-patch16-224\")\n\nimage = Image.open(\"image.jpg\")\ninputs = processor(images=image, return_tensors=\"pt\")\nwith torch.no_grad():\n    outputs = model(**inputs)\n```"
  else if containsAny paper.title ["diffusion", "stable diffusion"] then
    "```python\n# Example Diffusion Model\nfrom diffusers import StableDiffusionPipeline\nimport torch\n\npipe = StableDiffusionPipeline.from_pretrained(\"runwayml/stable-diffusion-v1-5\")\npipe = pipe.to(\"cuda\")\n\nprompt = \"a photo of an astronaut riding a horse on mars\"\nimage = pipe(prompt).images[0]\nimage.save(\"astronaut_rides_horse.png\")\n```"
  else
    "```python\n# Example implementation\nimport torch\nimport numpy as np\n\nclass Model(torch.nn.Module):\n    def __init__(self):\n        super().__init__()\n        self.linear = torch.nn.Linear(10, 1)\n        \n    def forward(self, x):\n        return self.linear(x)\n\nmodel = Model()\ninputs = torch.randn(1, 10)\noutputs = model(inputs)\n```"

/-- The term-counting score pattern shared by the novelty and
reproducibility computations of `enhancePaperWithDetails`: starting from a
base, add `perTitle` per term occurring in the title and `perSummary` per
term occurring in the (non-empty) summary. -/
def termScore (title summary : String) (base perTitle perSummary : ℚ)
    (terms : List String) : ℚ :=
  terms.foldl
    (fun score term =>
      let score := if containsAny title [term] then score + perTitle else score
      if summary != "" && containsAny summary [term] then score + perSummary else score)
    base

/-- The key-techniques loop of `enhancePaperWithDetails`, which stops once
three techniques are collected. -/
def collectTechniques (title : String) (keywords : List String) :
    List String → List String → List String
  | [], techniques => techniques
  | term :: rest, techniques =>
    let techniques :=
      if containsAny title [term] || containsAnyInSlice keywords term then techniques ++ [term]
      else techniques
    if techniques.length ≥ 3 then techniques
    else collectTechniques title keywords rest techniques

/-- The category-based fallback of the key-techniques computation. -/
def fallbackTechniques (keywords : List String) (techniques : List String) : List String :=
  keywords.foldl
    (fun techniques keyword =>
      if keyword = "cs.CL" then techniques ++ ["Natural Language Processing"]
      else if keyword = "cs.CV" then techniques ++ ["Computer Vision"]
      else if keyword = "cs.AI" then techniques ++ ["Artificial Intelligence"]
      else if keyword = "cs.LG" then techniques ++ ["Machine Learning"]
      else techniques)
    techniques

/-- The model-keyword detection loop of `enhancePaperWithDetails`: append a
model label to the keywords when a term of the model hits the title, summary
or the (pre-lowered) original keywords, unless the label is already present
(case-insensitively). -/
def addModelKeywords (lowerTitle lowerSummary : String) (lowerKeywords : List String) :
    List (String × List String) → List String → List String
  | [], keywords => keywords
  | (model, terms) :: rest, keywords =>
    let hit := terms.any (fun term =>
      goContains lowerTitle term || goContains lowerSummary term ||
        containsTermInSlice lowerKeywords term)
    let modelInKeywords := keywords.any (fun k => goToLower k == goToLower model)
    let keywords := if hit && !modelInKeywords then keywords ++ [model] else keywords
    addModelKeywords lowerTitle lowerSummary lowerKeywords rest keywords

/-- `enhancePaperWithDetails` from the papers package. Consumes exactly one
`rand.Intn` draw (for the simulated citation count). -/
def enhancePaperWithDetails (now : ℚ) (paper : Paper) (g : Rng) : Paper × Rng :=
  let titleLength := ((goToLower paper.title).splitOn " ").length
  let summaryLength :=
    if paper.summary != "" then ((goToLower paper.summary).splitOn " ").length else 0
  let citationAdjust : Int := ((titleLength % 5 : Nat) : Int) + ((summaryLength % 10 : Nat) : Int)
  let daysOld := (now - paper.publishedDate) / 24
  let draw := if daysOld < 30 then randIntn 20 g else randIntn 30 g
  let citationCount : Int :=
    if daysOld < 30 then (draw.1 : Int) + 1 + citationAdjust
    else (draw.1 : Int) + 20 + citationAdjust
  let daysSincePublication := goTrunc ((now - paper.publishedDate) / 24)
  let daysSincePublication := if daysSincePublication < 1 then 1 else daysSincePublication
  let citationVelocity := (citationCount : ℚ) / (daysSincePublication : ℚ)
  let noveltyScore := termScore paper.title paper.summary 3.0 0.3 0.2 noveltyTerms
  let noveltyScore := if noveltyScore > 5.0 then 5.0 else noveltyScore
  let reproducibilityScore := termScore paper.title paper.summary 2.5 0.3 0.2 reproducibilityTerms
  let reproducibilityScore :=
    if reproducibilityScore > 5.0 then 5.0 else reproducibilityScore
  let sentences := paper.summary.splitOn ". "
  let coreContributions := sentences.enum.filterMap
    (fun iSentence =>
      if iSentence.1 ≤ 2 ∧ goLen iSentence.2 > 10 then some (iSentence.2 ++ ".") else none)
  let techniques := collectTechniques paper.title paper.keywords enhanceAiTerms []
  let techniques :=
    if techniques.length < 2 then fallbackTechniques paper.keywords techniques else techniques
  let lowerKeywords := paper.keywords.map goToLower
  let lowerTitle := goToLower paper.title
  let lowerSummary := goToLower paper.summary
  let keywords :=
    addModelKeywords lowerTitle lowerSummary lowerKeywords modelKeywordsTable paper.keywords
  let codeSnippet :=
    if containsAny paper.title ["code", "implementation", "github"] ||
        containsAny paper.summary ["code", "implementation", "github"] then
      generateCodeSnippet paper
    else paper.codeSnippet
  ({ paper with
      citationCount := citationCount
      citationVelocity := citationVelocity
      noveltyScore := noveltyScore
      reproducibilityScore := reproducibilityScore
      coreContributions := coreContributions
      keyTechniques := techniques
      keywords := keywords
      codeSnippet := codeSnippet }, draw.2)

/-- First branch of the `enrichPapersWithScores` loop body: simulate a
citation count when none is present. -/
def enrichCitationCount (s : Paper × Rng) : Paper × Rng :=
  if s.1.citationCount = 0 then
    ({ s.1 with citationCount := ((randIntn 100 s.2).1 : Int) + 1 }, (randIntn 100 s.2).2)
  else s

/-- Second branch: derive a citation velocity when none is present. -/
def enrichCitationVelocity (now : ℚ) (s : Paper × Rng) : Paper × Rng :=
  if s.1.citationVelocity = 0 then
    ({ s.1 with citationVelocity :=
        (s.1.citationCount : ℚ) /
          ((if goTrunc ((now - s.1.publishedDate) / 24) < 1 then 1
            else goTrunc ((now - s.1.publishedDate) / 24) : Int) : ℚ) }, s.2)
  else s

/-- Third branch: draw a novelty score in `[3,5)` when none is present. -/
def enrichNovelty (s : Paper × Rng) : Paper × Rng :=
  if s.1.noveltyScore = 0 then
    ({ s.1 with noveltyScore := 3.0 + ((randFloat s.2).1 * 2.0) }, (randFloat s.2).2)
  else s

/-- Fourth branch: draw a reproducibility score in `[2,5)` when none is
present. -/
def enrichReproducibility (s : Paper × Rng) : Paper × Rng :=
  if s.1.reproducibilityScore = 0 then
    ({ s.1 with reproducibilityScore := 2.0 + ((randFloat s.2).1 * 3.0) }, (randFloat s.2).2)
  else s

/-- Final branch: papers with no core contributions get the full
`enhancePaperWithDetails` treatment. -/
def enrichMaybeEnhance (now : ℚ) (s : Paper × Rng) : Paper × Rng :=
  if s.1.coreContributions.length = 0 then enhancePaperWithDetails now s.1 s.2 else s

/-- One iteration of the `enrichPapersWithScores` loop. -/
def enrichOne (now : ℚ) (paper : Paper) (g : Rng) : Paper × Rng :=
  enrichMaybeEnhance now
    (enrichReproducibility (enrichNovelty (enrichCitationVelocity now
      (enrichCitationCount (paper, g)))))

/-- `enrichPapersWithScores` from the papers package, threading the draw
stream through the items in order. -/
def enrichPapersWithScores (now : ℚ) : List Paper → Rng → List Paper × Rng
  | [], g => ([], g)
  | p :: rest, g =>
    ((enrichOne now p g).1 :: (enrichPapersWithScores now rest (enrichOne now p g).2).1,
      (enrichPapersWithScores now rest (enrichOne now p g).2).2)

/-- The composite ranking score of `sortPapersByRelevance`. -/
def paperSortScore (now : ℚ) (p : Paper) : ℚ :=
  let daysOld := (now - p.publishedDate) / 24
  let freshness := 5.0 - mathMin (daysOld / 60) 5.0
  (p.citationVelocity * 0.3) + (p.noveltyScore * 0.3) +
    ((p.citationCount : ℚ) / 100.0 * 0.25) + (freshness * 0.15)

/-- The descending composite-score order used by `sortPapersByRelevance`. -/
def paperRel (now : ℚ) (a b : Paper) : Prop :=
  paperSortScore now b ≤ paperSortScore now a

instance (now : ℚ) : DecidableRel (paperRel now) :=
  fun a b => inferInstanceAs (Decidable (paperSortScore now b ≤ paperSortScore now a))

instance (now : ℚ) : IsTotal Paper (paperRel now) :=
  ⟨fun _ _ => le_total _ _⟩

instance (now : ℚ) : IsTrans Paper (paperRel now) :=
  ⟨fun _ _ _ hab hbc => le_trans hbc hab⟩

/-- `sortPapersByRelevance` from the papers package (`sort.Slice` modelled
by insertion sort over the comparator order). -/
def sortPapersByRelevance (now : ℚ) (papers : List Paper) : List Paper :=
  List.insertionSort (paperRel now) papers

/-- Papers carried by a fetch result (none when the fetch failed). -/
def papersOfResult : Except String (List Paper) → List Paper
  | Except.error _ => []
  | Except.ok ps => ps

/-- Tail of `FetchTopPapers`: fail when nothing at all was accumulated
(reporting the collected fetch errors), otherwise enrich and sort. -/
def fetchFinish (now : ℚ) (g : Rng) (allPapers : List Paper) (errs : List String) :
    Except String (List Paper) :=
  if allPapers.length = 0 then
    if errs.length > 0 then
      Except.error ("failed to fetch papers from all sources: " ++ String.intercalate "; " errs)
    else Except.error "no papers found from any source"
  else Except.ok (sortPapersByRelevance now (enrichPapersWithScores now allPapers g).1)

/-- `FetchTopPapers` from the papers package, as a function of the two fetch
outcomes (Papers with Code, and the blog-post aggregate): accumulate the
non-empty successful results, then finish. -/
def FetchTopPapers (pwcResult blogResult : Except String (List Paper)) (now : ℚ) (g : Rng) :
    Except String (List Paper) :=
  let pwcAcc : List Paper × List String :=
    match pwcResult with
    | Except.error e => ([], ["Papers with Code: " ++ e])
    | Except.ok pwcPapers => (if pwcPapers.length > 0 then pwcPapers else [], [])
  let acc : List Paper × List String :=
    match blogResult with
    | Except.error e => (pwcAcc.1, pwcAcc.2 ++ ["Blog posts: " ++ e])
    | Except.ok blogPosts =>
        (pwcAcc.1 ++ (if blogPosts.length > 0 then blogPosts else []), pwcAcc.2)
  fetchFinish now g acc.1 acc.2

/-- The fields that `fetchDevToAIArticles` (internal/papers/sources.go)
extracts from one Dev.to article. -/
structure DevToArticle where
  title : String
  url : String
  publishedAt : ℚ
  description : String
  reactionsCount : ℚ
  readingTime : ℚ
  authorName : String
  tags : List String
deriving DecidableEq

/-- Per-article mapping of `fetchDevToAIArticles`: note the novelty score
`3.5 + min(readingTime, 30)/10`. -/
def devToArticleToPaper (now : ℚ) (a : DevToArticle) : Paper :=
  { emptyPaper with
      title := a.title
      url := a.url
      authors := [a.authorName]
      publishedDate := a.publishedAt
      source := "Dev.to"
      summary := a.description
      keywords := a.tags
      citationCount := goTrunc a.reactionsCount
      citationVelocity :=
        ((goTrunc a.reactionsCount : Int) : ℚ) /
          ((maxInt 1 (goTrunc ((now - a.publishedAt) / 24)) : Int) : ℚ)
      noveltyScore := 3.5 + ((minInt (goTrunc a.readingTime) 30 : Int) : ℚ) / 10.0 }

/-! Bounds on the enriched novelty score. -/

theorem termScore_ge_base (title summary : String) (base perTitle perSummary : ℚ)
    (hpt : 0 ≤ perTitle) (hps : 0 ≤ perSummary) (terms : List String) :
    base ≤ termScore title summary base perTitle perSummary terms := by
  refine foldl_le_of_step _ ?_ _ _
  intro acc x
  dsimp only
  split <;> split <;> linarith

theorem enhance_novelty_bounds (now : ℚ) (paper : Paper) (g : Rng) :
    3 ≤ (enhancePaperWithDetails now paper g).1.noveltyScore ∧
      (enhancePaperWithDetails now paper g).1.noveltyScore ≤ 5 := by
  have hbase : (3.0 : ℚ) ≤ termScore paper.title paper.summary 3.0 0.3 0.2 noveltyTerms :=
    termScore_ge_base paper.title paper.summary 3.0 0.3 0.2 (by norm_num) (by norm_num)
      noveltyTerms
  simp only [enhancePaperWithDetails]
  split_ifs with h
  · constructor <;> norm_num
  · constructor <;> linarith

theorem enrichCitationCount_core (s : Paper × Rng) :
    (enrichCitationCount s).1.coreContributions = s.1.coreContributions := by
  unfold enrichCitationCount
  split <;> rfl

theorem enrichCitationVelocity_core (now : ℚ) (s : Paper × Rng) :
    (enrichCitationVelocity now s).1.coreContributions = s.1.coreContributions := by
  unfold enrichCitationVelocity
  split <;> rfl

theorem enrichNovelty_core (s : Paper × Rng) :
    (enrichNovelty s).1.coreContributions = s.1.coreContributions := by
  unfold enrichNovelty
  split <;> rfl

theorem enrichReproducibility_core (s : Paper × Rng) :
    (enrichReproducibility s).1.coreContributions = s.1.coreContributions := by
  unfold enrichReproducibility
  split <;> rfl

theorem enrichOne_novelty_bounds (now : ℚ) (paper : Paper) (g : Rng)
    (h : paper.coreContributions = []) :
    3 ≤ (enrichOne now paper g).1.noveltyScore ∧ (enrichOne now paper g).1.noveltyScore ≤ 5 := by
  unfold enrichOne enrichMaybeEnhance
  have hcore : (enrichReproducibility (enrichNovelty (enrichCitationVelocity now
      (enrichCitationCount (paper, g))))).1.coreContributions = [] := by
    rw [enrichReproducibility_core, enrichNovelty_core, enrichCitationVelocity_core,
      enrichCitationCount_core]
    exact h
  rw [if_pos (by rw [hcore]; rfl)]
  exact enhance_novelty_bounds now _ _

theorem enrichPapersWithScores_mem {now : ℚ} :
    ∀ {papers : List Paper} {g : Rng} {q : Paper},
      q ∈ (enrichPapersWithScores now papers g).1 →
      ∃ p ∈ papers, ∃ g2, q = (enrichOne now p g2).1 := by
  intro papers
  induction papers with
  | nil =>
    intro g q hq
    simp [enrichPapersWithScores] at hq
  | cons p rest ih =>
    intro g q hq
    simp only [enrichPapersWithScores] at hq
    rcases List.mem_cons.mp hq with h | h
    · exact ⟨p, List.mem_cons_self _ _, g, h⟩
    · obtain ⟨p2, hp2, g2, hg2⟩ := ih h
      exact ⟨p2, List.mem_cons_of_mem _ hp2, g2, hg2⟩

theorem fetchFinish_mem {now : ℚ} {g : Rng} {allPapers : List Paper} {errs : List String}
    {p : Paper} (hp : p ∈ papersOfResult (fetchFinish now g allPapers errs)) :
    ∃ q ∈ allPapers, ∃ g2, p = (enrichOne now q g2).1 := by
  unfold fetchFinish at hp
  split at hp
  · split at hp <;> simp [papersOfResult] at hp
  · simp only [papersOfResult] at hp
    exact enrichPapersWithScores_mem
      ((List.perm_insertionSort (paperRel now) _).mem_iff.mp hp)

theorem mem_of_mem_ifNonEmpty {l : List Paper} {q : Paper}
    (h : q ∈ if l.length > 0 then l else []) : q ∈ l := by
  split at h
  · exact h
  · cases h

theorem fetchTopPapers_mem {r1 r2 : Except String (List Paper)} {now : ℚ} {g : Rng} {p : Paper}
    (hp : p ∈ papersOfResult (FetchTopPapers r1 r2 now g)) :
    ∃ q, (q ∈ papersOfResult r1 ∨ q ∈ papersOfResult r2) ∧ ∃ g2, p = (enrichOne now q g2).1 := by
  rcases r1 with e1 | l1 <;> rcases r2 with e2 | l2 <;>
    simp only [FetchTopPapers] at hp <;>
    obtain ⟨q, hq, g2, hg2⟩ := fetchFinish_mem hp
  · cases hq
  · rw [List.nil_append] at hq
    exact ⟨q, Or.inr (by simpa [papersOfResult] using mem_of_mem_ifNonEmpty hq), g2, hg2⟩
  · exact ⟨q, Or.inl (by simpa [papersOfResult] using mem_of_mem_ifNonEmpty hq), g2, hg2⟩
  · rcases List.mem_append.mp hq with h | h
    · exact ⟨q, Or.inl (by simpa [papersOfResult] using mem_of_mem_ifNonEmpty h), g2, hg2⟩
    · exact ⟨q, Or.inr (by simpa [papersOfResult] using mem_of_mem_ifNonEmpty h), g2, hg2⟩

/-- Claim C1: after the scoring step, scores are inside their declared
ranges. For repositories (whose engagement counters, as parsed by the
fetchers, are non-negative), `calculateRelevanceScores` lands in `[0,1]`.
For every paper of a `FetchTopPapers` result (all fetchers hand over papers
with empty `CoreContributions`, so each paper is run through
`enhancePaperWithDetails`, whose novelty computation lands in `[3,5]` — this
includes Dev.to papers, whose fetched novelty score may start above 5), the
novelty score lands in `[0,5]`. -/
theorem C1_scores_in_range :
    (∀ (now : ℚ) (repos : List Repository),
      (∀ r ∈ repos, 0 ≤ r.stars ∧ 0 ≤ r.trendMetrics.stars24h) →
      ∀ r ∈ calculateRelevanceScores now repos,
        0 ≤ r.relevanceScore ∧ r.relevanceScore ≤ 1) ∧
    (∀ (pwcResult blogResult : Except String (List Paper)) (now : ℚ) (g : Rng),
      (∀ p ∈ papersOfResult pwcResult, p.coreContributions = []) →
      (∀ p ∈ papersOfResult blogResult, p.coreContributions = []) →
      ∀ p ∈ papersOfResult (FetchTopPapers pwcResult blogResult now g),
        0 ≤ p.noveltyScore ∧ p.noveltyScore ≤ 5) := by
  constructor
  · intro now repos h r hr
    rcases List.mem_map.mp hr with ⟨r0, hr0, heq⟩
    subst heq
    exact scoreRepository_bounds now r0 (h r0 hr0).1 (h r0 hr0).2
  · intro r1 r2 now g h1 h2 p hp
    obtain ⟨q, hq, g2, hg2⟩ := fetchTopPapers_mem hp
    have hqcore : q.coreContributions = [] := by
      rcases hq with h | h
      · exact h1 q h
      · exact h2 q h
    have hb := enrichOne_novelty_bounds now q g2 hqcore
    rw [hg2]
    exact ⟨by linarith [hb.1], hb.2⟩

/-- A Dev.to article whose reading time drives the fetched novelty score to
6.5, above the declared range. -/
def devToArticle30 : DevToArticle :=
  { title := "a", url := "u", publishedAt := 0, description := "",
    reactionsCount := 3, readingTime := 30, authorName := "n", tags := [] }

/-- The paper the Dev.to fetcher builds from `devToArticle30`. -/
def devPaper : Paper :=
  devToArticleToPaper 0 devToArticle30

/-- Witness for C1 at concrete inputs: a single zero-valued repository, and
a pipeline run whose only paper comes from the Dev.to fetcher. -/
theorem C1_witness :
    (∀ r ∈ calculateRelevanceScores 0 [emptyRepository],
      0 ≤ r.relevanceScore ∧ r.relevanceScore ≤ 1) ∧
    (0 ≤ (enrichOne 0 devPaper rng0).1.noveltyScore ∧
      (enrichOne 0 devPaper rng0).1.noveltyScore ≤ 5) :=
  ⟨C1_scores_in_range.1 0 [emptyRepository] (by decide),
    C1_scores_in_range.2 (Except.ok [devPaper]) (Except.error "down") 0 rng0
      (by decide) (by decide) ((enrichOne 0 devPaper rng0).1)
      (List.mem_singleton_self _)⟩

/-! Determinism of the scoring step (claim C6). The enrichment branches are
the identity on papers whose fields are already populated. -/

theorem enrichCitationCount_id {s : Paper × Rng} (h : s.1.citationCount ≠ 0) :
    enrichCitationCount s = s := by
  unfold enrichCitationCount
  rw [if_neg h]

theorem enrichCitationVelocity_id (now : ℚ) {s : Paper × Rng}
    (h : s.1.citationVelocity ≠ 0) : enrichCitationVelocity now s = s := by
  unfold enrichCitationVelocity
  rw [if_neg h]

theorem enrichNovelty_id {s : Paper × Rng} (h : s.1.noveltyScore ≠ 0) :
    enrichNovelty s = s := by
  unfold enrichNovelty
  rw [if_neg h]

theorem enrichReproducibility_id {s : Paper × Rng} (h : s.1.reproducibilityScore ≠ 0) :
    enrichReproducibility s = s := by
  unfold enrichReproducibility
  rw [if_neg h]

theorem enrichMaybeEnhance_id (now : ℚ) {s : Paper × Rng}
    (h : s.1.coreContributions ≠ []) : enrichMaybeEnhance now s = s := by
  unfold enrichMaybeEnhance
  rw [if_neg (by simpa [List.length_eq_zero] using h)]

theorem enrichOne_id (now : ℚ) (p : Paper) (g : Rng)
    (hcc : p.citationCount ≠ 0) (hcv : p.citationVelocity ≠ 0) (hns : p.noveltyScore ≠ 0)
    (hrs : p.reproducibilityScore ≠ 0) (hcore : p.coreContributions ≠ []) :
    enrichOne now p g = (p, g) := by
  unfold enrichOne
  rw [enrichCitationCount_id hcc, enrichCitationVelocity_id now hcv, enrichNovelty_id hns,
    enrichReproducibility_id hrs, enrichMaybeEnhance_id now hcore]

theorem enrichPapersWithScores_id (now : ℚ) :
    ∀ (papers : List Paper) (g : Rng),
      (∀ p ∈ papers, p.citationCount ≠ 0 ∧ p.citationVelocity ≠ 0 ∧ p.noveltyScore ≠ 0 ∧
        p.reproducibilityScore ≠ 0 ∧ p.coreContributions ≠ []) →
      enrichPapersWithScores now papers g = (papers, g) := by
  intro papers
  induction papers with
  | nil => intro g _; rfl
  | cons p rest ih =>
    intro g h
    have hp := h p (List.mem_cons_self _ _)
    have hone : enrichOne now p g = (p, g) :=
      enrichOne_id now p g hp.1 hp.2.1 hp.2.2.1 hp.2.2.2.1 hp.2.2.2.2
    simp only [enrichPapersWithScores, hone]
    rw [ih g (fun q hq => h q (List.mem_cons_of_mem _ hq))]

/-- Claim C6 (amended): `calculateRelevanceScores` is a pure function of the
items and the reference time by construction (it consumes no random draws),
but `enrichPapersWithScores` also depends on the time-seeded random stream,
so two runs over the same items at the same reference time need not agree
(see the counterexample). Whenever every paper arrives with non-zero
citation count, citation velocity, novelty and reproducibility scores and
non-empty core contributions, the enrichment changes nothing at all and is
therefore independent of the stream. -/
theorem C6_scorer_deterministic (now : ℚ) (papers : List Paper) (g1 g2 : Rng)
    (h : ∀ p ∈ papers, p.citationCount ≠ 0 ∧ p.citationVelocity ≠ 0 ∧ p.noveltyScore ≠ 0 ∧
      p.reproducibilityScore ≠ 0 ∧ p.coreContributions ≠ []) :
    (enrichPapersWithScores now papers g1).1 = (enrichPapersWithScores now papers g2).1 := by
  rw [enrichPapersWithScores_id now papers g1 h, enrichPapersWithScores_id now papers g2 h]

/-- Paper whose novelty score arrives as zero (the shape in which the
fetchers hand over papers) and whose remaining enriched fields are
populated. -/
def zeroNoveltyPaper : Paper :=
  { emptyPaper with
      citationCount := 5
      citationVelocity := 1
      reproducibilityScore := 1
      coreContributions := ["x"] }

/-- Claim C6 (counterexample): two runs of `enrichPapersWithScores` on the
same input at the same reference time yield different novelty scores when
the time-seeded random stream differs, so the scoring step is not a pure
function of the item fields and the reference time. -/
theorem C6_counterexample :
    (enrichPapersWithScores 0 [zeroNoveltyPaper] { ints := [], floats := [0] }).1 ≠
      (enrichPapersWithScores 0 [zeroNoveltyPaper] { ints := [], floats := [1] }).1 := by
  intro heq
  have h2 := congrArg (fun l => (l.getD 0 emptyPaper).noveltyScore) heq
  norm_num [enrichPapersWithScores, enrichOne, enrichCitationCount, enrichCitationVelocity,
    enrichNovelty, enrichReproducibility, enrichMaybeEnhance, randFloat, zeroNoveltyPaper,
    emptyPaper, List.getD_cons_zero] at h2

/-- Paper with every enriched field already populated. -/
def nonzeroPaper : Paper :=
  { emptyPaper with
      citationCount := 1
      citationVelocity := 1
      noveltyScore := 1
      reproducibilityScore := 1
      coreContributions := ["c"] }

/-- Witness for C6 (amended) at a concrete input: a fully populated paper is
enriched identically under two different random streams. -/
theorem C6_witness :
    (enrichPapersWithScores 0 [nonzeroPaper] { ints := [7], floats := [1] }).1 =
      (enrichPapersWithScores 0 [nonzeroPaper] rng0).1 :=
  C6_scorer_deterministic 0 [nonzeroPaper] _ _ (by decide)

/-! The scheduler and snapshot store of cmd/server/main.go (claims C2, C9). -/

/-- The process-wide snapshot state of cmd/server/main.go: `githubRepos`,
`researchPapers` and `lastUpdated`. -/
structure ServerState where
  githubRepos : List Repository
  researchPapers : List Paper
  lastUpdated : ℚ
deriving DecidableEq

/-- The hourly GitHub scraping job scheduled in `main`: on error, log the
error and return without touching the state; on success, publish the new
collection and timestamp. The second component is the logged error. -/
def scheduledRepoJob (st : ServerState) (fetchResult : Except String (List Repository))
    (now : ℚ) : ServerState × Option String :=
  match fetchResult with
  | Except.error e => (st, some e)
  | Except.ok repos => ({ st with githubRepos := repos, lastUpdated := now }, none)

/-- The six-hourly research-papers job scheduled in `main`. -/
def scheduledPaperJob (st : ServerState) (fetchResult : Except String (List Paper))
    (now : ℚ) : ServerState × Option String :=
  match fetchResult with
  | Except.error e => (st, some e)
  | Except.ok ps => ({ st with researchPapers := ps, lastUpdated := now }, none)

/-- Claim C2: a failed scheduled run leaves the published snapshot and the
`lastUpdated` timestamp unchanged and reports the error, and
`FetchTopPapers` returns an error whenever no source yields any paper. -/
theorem C2_failed_run_keeps_snapshot (st : ServerState) (now : ℚ) (e1 e2 : String)
    (pwcResult blogResult : Except String (List Paper)) (g : Rng)
    (h1 : papersOfResult pwcResult = []) (h2 : papersOfResult blogResult = []) :
    scheduledRepoJob st (Except.error e1) now = (st, some e1) ∧
    scheduledPaperJob st (Except.error e2) now = (st, some e2) ∧
    ∃ msg, FetchTopPapers pwcResult blogResult now g = Except.error msg := by
  refine ⟨rfl, rfl, ?_⟩
  rcases pwcResult with e | l1
  · rcases blogResult with ex | l2
    · exact ⟨_, rfl⟩
    · have hl2 : l2 = [] := h2
      subst hl2
      exact ⟨_, rfl⟩
  · have hl1 : l1 = [] := h1
    subst hl1
    rcases blogResult with ex | l2
    · exact ⟨_, rfl⟩
    · have hl2 : l2 = [] := h2
      subst hl2
      exact ⟨_, rfl⟩

/-- Witness for C2 at concrete inputs: failed runs against a non-trivial
previous snapshot. -/
theorem C2_witness :
    scheduledRepoJob { githubRepos := [repoXa], researchPapers := [], lastUpdated := 5 }
        (Except.error "boom") 9 =
      ({ githubRepos := [repoXa], researchPapers := [], lastUpdated := 5 }, some "boom") ∧
    scheduledPaperJob { githubRepos := [repoXa], researchPapers := [], lastUpdated := 5 }
        (Except.error "bust") 9 =
      ({ githubRepos := [repoXa], researchPapers := [], lastUpdated := 5 }, some "bust") ∧
    ∃ msg, FetchTopPapers (Except.error "down") (Except.ok []) 9 rng0 = Except.error msg :=
  C2_failed_run_keeps_snapshot
    { githubRepos := [repoXa], researchPapers := [], lastUpdated := 5 } 9 "boom" "bust"
    (Except.error "down") (Except.ok []) rng0 rfl rfl

/-- Response shape of GET /api/stats. -/
structure StatsResponse where
  last_updated : ℚ
  trending_repos_count : Nat
  research_papers_count : Nat
deriving DecidableEq

/-- The GET /api/stats handler of cmd/server/main.go. -/
def statsHandler (st : ServerState) : StatsResponse :=
  { last_updated := st.lastUpdated
    trending_repos_count := st.githubRepos.length
    research_papers_count := st.researchPapers.length }

/-- The initial data collection of `main`: the state starts at its zero
value, each successful initial fetch publishes its collection, and
`lastUpdated` is then set to the wall clock unconditionally. -/
def initialState (repoResult : Except String (List Repository))
    (paperResult : Except String (List Paper)) (now : ℚ) : ServerState :=
  let st : ServerState := { githubRepos := [], researchPapers := [], lastUpdated := 0 }
  let st := match repoResult with
    | Except.error _ => st
    | Except.ok repos => { st with githubRepos := repos }
  let st := match paperResult with
    | Except.error _ => st
    | Except.ok ps => { st with researchPapers := ps }
  { st with lastUpdated := now }

/-- Claim C9 (counterexample): on a cold start where both initial fetches
failed, /api/stats reports both counts as 0, but `last_updated` is the
non-zero wall clock read at the end of the initial collection — `main` runs
`lastUpdated = time.Now()` unconditionally — not the zero value the claim
asserts (`time.Now()` is never the zero time; the clock reads 5 here). -/
theorem C9_counterexample :
    statsHandler (initialState (Except.error "a") (Except.error "b") 5) =
      { last_updated := 5, trending_repos_count := 0, research_papers_count := 0 } ∧
    (statsHandler (initialState (Except.error "a") (Except.error "b") 5)).last_updated ≠ 0 := by
  exact ⟨rfl, by decide⟩

/-- Claim C9 (amended): on cold start (both initial fetches failed),
/api/stats returns without error counts of 0 for both collections, and a
`last_updated` equal to the wall-clock time recorded at the end of the
initial collection — a non-zero timestamp, not the zero value. -/
theorem C9_stats_cold_start (e1 e2 : String) (now : ℚ) :
    statsHandler (initialState (Except.error e1) (Except.error e2) now) =
      { last_updated := now, trending_repos_count := 0, research_papers_count := 0 } := rfl

/-! The research-articles read endpoint (claim C8). -/

/-- Hexadecimal digit table of Go net/url. -/
def upperhex : List Char :=
  ['0', '1', '2', '3', '4', '5', '6', '7', '8', '9', 'A', 'B', 'C', 'D', 'E', 'F']

/-- Go `url.QueryEscape` byte predicate: ASCII letters, digits and
`-`, `_`, `.`, `~` are kept, everything else is escaped. -/
def shouldEscapeQuery (b : UInt8) : Bool :=
  !((65 ≤ b.toNat && b.toNat ≤ 90) || (97 ≤ b.toNat && b.toNat ≤ 122) ||
    (48 ≤ b.toNat && b.toNat ≤ 57) ||
    b.toNat == 45 || b.toNat == 95 || b.toNat == 46 || b.toNat == 126)

/-- Escape one byte the way Go `url.QueryEscape` does (space becomes `+`). -/
def escapeByte (b : UInt8) : String :=
  if b.toNat == 32 then "+"
  else if shouldEscapeQuery b then
    String.mk ['%', upperhex.getD (b.toNat / 16) '0', upperhex.getD (b.toNat % 16) '0']
  else String.mk [Char.ofNat b.toNat]

/-- Go `url.QueryEscape` over the UTF-8 bytes of the string. -/
def queryEscape (s : String) : String :=
  String.join (s.toUTF8.toList.map escapeByte)

/-- The arXiv search fallback URL built by the read endpoints for papers
without a URL. -/
def fallbackURL (title : String) : String :=
  "https://arxiv.org/search/?query=" ++ queryEscape title

/-- The GET /api/research-articles handler of cmd/server/main.go: copy the
snapshot and replace empty URLs by the arXiv search fallback. -/
def researchArticlesHandler (papers : List Paper) : List Paper :=
  papers.map (fun p => if p.url = "" then { p with url := fallbackURL p.title } else p)

theorem fallbackURL_ne_empty (title : String) : fallbackURL title ≠ "" := by
  intro h
  have hlen := congrArg String.length h
  rw [fallbackURL, String.length_append] at hlen
  have h32 : ("https://arxiv.org/search/?query=" : String).length = 32 := by decide
  have h0 : ("" : String).length = 0 := rfl
  rw [h32, h0] at hlen
  omega

/-- Claim C8: every snapshot paper with an empty URL appears in the
/api/research-articles response with the same title and a non-empty URL
containing the URL-encoded title, and papers whose URL is already non-empty
are returned unchanged. -/
theorem C8_fallback_url (papers : List Paper) :
    (∀ p ∈ papers, p.url = "" →
      ∃ q ∈ researchArticlesHandler papers, q.title = p.title ∧ q.url ≠ "" ∧
        ∃ pre post, q.url = pre ++ queryEscape q.title ++ post) ∧
    (∀ p ∈ papers, p.url ≠ "" → p ∈ researchArticlesHandler papers) := by
  constructor
  · intro p hp hurl
    refine ⟨{ p with url := fallbackURL p.title },
      List.mem_map.mpr ⟨p, hp, by rw [if_pos hurl]⟩, rfl, fallbackURL_ne_empty p.title,
      "https://arxiv.org/search/?query=", "", ?_⟩
    rw [String.append_empty]
    rfl
  · intro p hp hurl
    exact List.mem_map.mpr ⟨p, hp, by rw [if_neg hurl]⟩

/-- Paper without a URL, and paper with one. -/
def noURLPaper : Paper :=
  { emptyPaper with title := "a b" }

/-- Paper with a URL already set. -/
def withURLPaper : Paper :=
  { emptyPaper with title := "t", url := "http://e" }

/-- Witness for C8 at a concrete input: one paper lacking a URL and one with
a URL pass through the handler as claimed. -/
theorem C8_witness :
    (∃ q ∈ researchArticlesHandler [noURLPaper, withURLPaper], q.title = noURLPaper.title ∧
      q.url ≠ "" ∧ ∃ pre post, q.url = pre ++ queryEscape q.title ++ post) ∧
    withURLPaper ∈ researchArticlesHandler [noURLPaper, withURLPaper] :=
  ⟨(C8_fallback_url [noURLPaper, withURLPaper]).1 noURLPaper (by decide) rfl,
    (C8_fallback_url [noURLPaper, withURLPaper]).2 withURLPaper (by decide) (by decide)⟩

/-! The on-demand model-repository search (claim C10). -/

/-- Decoded fields of one item of the GitHub search API response used by
`directSearchGitHub`. -/
structure GitHubSearchItem where
  fullName : String
  htmlURL : String
  description : String
  stargazersCount : Int
  language : String
  updatedAt : Option ℚ
deriving DecidableEq

/-- `directSearchGitHub` (cmd/server/main.go) as a function of the decoded
search response: every item becomes a `Repository` with zeroed trend fields
and a fixed relevance score of 4.5; all fields the code does not set carry
their Go zero values. -/
def directSearchGitHub (items : List GitHubSearchItem) : List Repository :=
  items.map (fun item =>
    { emptyRepository with
        name := item.fullName
        url := item.htmlURL
        description := item.description
        stars := item.stargazersCount
        language := item.language
        lastCommit := item.updatedAt
        trendMetrics := { stars24h := 0, forks24h := 0, views7d := 0 }
        gainedStars := 0
        relevanceScore := 4.5 })

/-- The per-model search keyword map of `searchModelReposHandler`. -/
def searchTerms : List (String × List String) :=
  [("cursor", ["getcursor", "cursor-ai", "cursor ai", "cursor-editor"]),
   ("deepseek", ["deepseek-ai", "deepseek coder", "deepseek-coder", "deepseek llm"]),
   ("hunyuan", ["tencent hunyuan", "hunyuanvideo", "hunyuandit", "tencent-hunyuan"]),
   ("claude", ["anthropic claude", "claude-3", "claude-instant", "anthropic-claude"]),
   ("gemini", ["google gemini", "google-gemini", "gemini-pro", "gemini-ultra"]),
   ("llama", ["meta-llama", "llama3", "llama-3", "llama-2", "meta llama"]),
   ("qwen", ["alibaba qwen", "qwenlm", "qwen-vl", "qwen-7b", "aliyun qwen"]),
   ("gpt", ["chatgpt", "gpt-4", "gpt-3.5", "openai gpt", "gpt-turbo"]),
   ("文心一言", ["文心一言", "baidu ernie", "wenxin", "百度文心"])]

/-- The keyword lookup of `searchModelReposHandler`: unknown model names use
the raw name as the only term. -/
def lookupSearchTerms (modelName : String) : List String :=
  match searchTerms.find? (fun kv => kv.1 == modelName) with
  | some kv => kv.2
  | none => [modelName]

/-- The per-repository relevance re-check of `searchModelReposHandler`: a
repository is kept when a search term occurs in its lowered name or
description, or the model name itself occurs in the name. -/
def repoIsRelevant (terms : List String) (modelName : String) (repo : Repository) : Bool :=
  (terms.any (fun term =>
    goContains (goToLower repo.name) (goToLower term) ||
      goContains (goToLower repo.description) (goToLower term))) ||
    goContains (goToLower repo.name) (goToLower modelName)

/-- `searchModelReposHandler` as a function of the decoded GitHub response:
empty model names are rejected with a bad-request error, otherwise the
direct search results are filtered down to the relevant ones. -/
def searchModelReposHandler (modelName : String) (items : List GitHubSearchItem) :
    Except String (String × List Repository) :=
  if modelName = "" then Except.error "Model name is required"
  else
    Except.ok (modelName,
      (directSearchGitHub items).filter (repoIsRelevant (lookupSearchTerms modelName) modelName))

/-- Claim C10: every repository returned by the model-search endpoint has
relevance score exactly 4.5 and `GainedStars` and `Stars24h` exactly 0; in
particular its relevance score lies outside the `[0,1]` range declared for
repository scores. -/
theorem C10_model_search_scores (modelName : String) (items : List GitHubSearchItem)
    (model : String) (repos : List Repository)
    (hout : searchModelReposHandler modelName items = Except.ok (model, repos)) :
    ∀ r ∈ repos, r.relevanceScore = 4.5 ∧ r.gainedStars = 0 ∧
      r.trendMetrics.stars24h = 0 ∧ ¬ (r.relevanceScore ≤ 1) := by
  intro r hr
  unfold searchModelReposHandler at hout
  split at hout
  · cases hout
  · injection hout with h
    have hrepos : repos = (directSearchGitHub items).filter
        (repoIsRelevant (lookupSearchTerms modelName) modelName) := (congrArg Prod.snd h).symm
    rw [hrepos] at hr
    have hr2 : r ∈ directSearchGitHub items := List.mem_of_mem_filter hr
    rcases List.mem_map.mp hr2 with ⟨item, _, heq⟩
    subst heq
    refine ⟨rfl, rfl, rfl, ?_⟩
    norm_num

/-- A GitHub search item whose name mentions the model. -/
def searchItem0 : GitHubSearchItem :=
  { fullName := "x/gpt", htmlURL := "h", description := "", stargazersCount := 1,
    language := "go", updatedAt := none }

/-- The repository that `directSearchGitHub` builds from `searchItem0`. -/
def searchRepo0 : Repository :=
  { emptyRepository with
      name := "x/gpt"
      url := "h"
      description := ""
      stars := 1
      language := "go"
      lastCommit := none
      trendMetrics := { stars24h := 0, forks24h := 0, views7d := 0 }
      gainedStars := 0
      relevanceScore := 4.5 }

/-- Witness for C10 at a concrete input: the repository returned by the
endpoint for model `gpt` over one search item carries the out-of-range
score. -/
theorem C10_witness :
    searchRepo0.relevanceScore = 4.5 ∧ searchRepo0.gainedStars = 0 ∧
      searchRepo0.trendMetrics.stars24h = 0 ∧ ¬ (searchRepo0.relevanceScore ≤ 1) :=
  C10_model_search_scores "gpt" [searchItem0] "gpt"
    ((directSearchGitHub [searchItem0]).filter (repoIsRelevant (lookupSearchTerms "gpt") "gpt"))
    rfl searchRepo0 (List.mem_singleton_self _)

/-! The author-field normalization shared by `fetchPapersWithCode` (papers
package) and `scrapePapersWithCodeAPI` (scrapers package) — claim C7. The
raw JSON value of the authors field is decoded three ways in order: a list
of objects with a `name` member, a single string, a list of strings; when
none succeeds, the sentinel author is used. -/

/-- A JSON value. -/
inductive Json where
  | null
  | boolean (b : Bool)
  | num (q : ℚ)
  | str (s : String)
  | arr (elems : List Json)
  | obj (members : List (String × Json))

/-- Go unmarshalling of a JSON value into a string field: `null` keeps the
current value, a string replaces it, anything else is a type error. -/
def goDecodeStringField (current : String) : Json → Option String
  | Json.null => some current
  | Json.str s => some s
  | _ => none

/-- Go unmarshalling of a JSON object member list into
`struct { Name string }`: members are processed in order, keys matching
`name` case-insensitively assign the field (starting from the zero value). -/
def objNameField (members : List (String × Json)) : Option String :=
  members.foldl
    (fun acc kv => acc.bind (fun cur =>
      if goToLower kv.1 == "name" then goDecodeStringField cur kv.2 else some cur))
    (some "")

/-- Go unmarshalling of one array element into `struct { Name string }`. -/
def decodeNameObj : Json → Option String
  | Json.null => some ""
  | Json.obj members => objNameField members
  | _ => none

/-- First decode attempt of the cascade: `[]struct { Name string }`. -/
def decodeAuthorsObjList : Json → Option (List String)
  | Json.null => some []
  | Json.arr elems => elems.mapM decodeNameObj
  | _ => none

/-- Second decode attempt of the cascade: a single string. -/
def decodeAuthorString : Json → Option String
  | Json.null => some ""
  | Json.str s => some s
  | _ => none

/-- Element decode of the third attempt. -/
def decodeStringElem : Json → Option String
  | Json.null => some ""
  | Json.str s => some s
  | _ => none

/-- Third decode attempt of the cascade: `[]string`. -/
def decodeAuthorStringList : Json → Option (List String)
  | Json.null => some []
  | Json.arr elems => elems.mapM decodeStringElem
  | _ => none

/-- The author-normalization cascade: try the object list, then the single
string, then the string list, finally the sentinel author. -/
def parseAuthors (j : Json) : List String :=
  match decodeAuthorsObjList j with
  | some authorsArray => authorsArray
  | none =>
    match decodeAuthorString j with
    | some authorStr => [authorStr]
    | none =>
      match decodeAuthorStringList j with
      | some authorStrArray => authorStrArray
      | none => ["Unknown Author"]

theorem mapM_decodeNameObj_of_isSome :
    ∀ (memberss : List (List (String × Json))),
      (∀ ms ∈ memberss, (objNameField ms).isSome) →
      (memberss.map Json.obj).mapM decodeNameObj =
        some (memberss.map (fun ms => (objNameField ms).getD "")) := by
  intro memberss
  induction memberss with
  | nil => intro _; rfl
  | cons ms rest ih =>
    intro h
    obtain ⟨nm, hnm⟩ := Option.isSome_iff_exists.mp (h ms (List.mem_cons_self _ _))
    simp only [List.map_cons, List.mapM_cons, decodeNameObj, hnm,
      ih (fun x hx => h x (List.mem_cons_of_mem _ hx)), Option.bind_some, Option.getD_some,
      Option.pure_def, Option.bind_eq_bind, Option.some_bind]

theorem mapM_decodeStringElem (ss : List String) :
    (ss.map Json.str).mapM decodeStringElem = some ss := by
  induction ss with
  | nil => rfl
  | cons s rest ih =>
    simp only [List.map_cons, List.mapM_cons, decodeStringElem, ih, Option.pure_def,
      Option.bind_eq_bind, Option.some_bind]

/-- Claim C7: the fetcher normalizes every authors JSON value into a string
list: an object list yields the list of `name` fields, a single string
yields the one-element list, a string list yields that list, and when none
of the three decoder shapes parses, the result is the one-element sentinel
list containing the unknown-author placeholder. -/
theorem C7_author_normalization :
    (∀ memberss : List (List (String × Json)),
      (∀ ms ∈ memberss, (objNameField ms).isSome) →
      parseAuthors (Json.arr (memberss.map Json.obj)) =
        memberss.map (fun ms => (objNameField ms).getD "")) ∧
    (∀ s : String, parseAuthors (Json.str s) = [s]) ∧
    (∀ ss : List String, parseAuthors (Json.arr (ss.map Json.str)) = ss) ∧
    (∀ j : Json, decodeAuthorsObjList j = none → decodeAuthorString j = none →
      decodeAuthorStringList j = none → parseAuthors j = ["Unknown Author"]) := by
  refine ⟨?_, ?_, ?_, ?_⟩
  · intro memberss h
    unfold parseAuthors
    rw [show decodeAuthorsObjList (Json.arr (memberss.map Json.obj)) =
      (memberss.map Json.obj).mapM decodeNameObj from rfl, mapM_decodeNameObj_of_isSome memberss h]
  · intro s
    rfl
  · intro ss
    cases ss with
    | nil => rfl
    | cons s rest =>
      have h1 : decodeAuthorsObjList (Json.arr ((s :: rest).map Json.str)) = none := by
        simp only [List.map_cons, decodeAuthorsObjList, List.mapM_cons, decodeNameObj,
          Option.pure_def, Option.bind_eq_bind, Option.none_bind]
      have h3 : decodeAuthorStringList (Json.arr ((s :: rest).map Json.str)) =
          some (s :: rest) := by
        rw [show decodeAuthorStringList (Json.arr ((s :: rest).map Json.str)) =
          ((s :: rest).map Json.str).mapM decodeStringElem from rfl, mapM_decodeStringElem]
      unfold parseAuthors
      rw [h1, h3]
      rfl
  · intro j h1 h2 h3
    unfold parseAuthors
    rw [h1, h2, h3]

/-- Witness for C7 at concrete inputs: an object list and an unparsable
number. -/
theorem C7_witness :
    parseAuthors (Json.arr [Json.obj [("name", Json.str "Alice")],
      Json.obj [("name", Json.str "Bob")]]) = ["Alice", "Bob"] ∧
    parseAuthors (Json.num 42) = ["Unknown Author"] := by
  constructor
  · have h := C7_author_normalization.1
      [[("name", Json.str "Alice")], [("name", Json.str "Bob")]] (by decide)
    have h2 : ([[("name", Json.str "Alice")], [("name", Json.str "Bob")]].map
        (fun ms => (objNameField ms).getD "")) = ["Alice", "Bob"] := by decide
    rw [h2] at h
    exact h
  · exact C7_author_normalization.2.2.2 (Json.num 42) rfl rfl rfl
